import Mathlib

/-!
Shallow embedding of `src/tools/migrate.py` (the PURL.org XML → YAML
migration script) together with proofs about the claims of the spec.

The script maintains a SAX `ContentHandler` with mutable state
(`count`, `content`, `entry`) and two global lists `exact` and `prefix`.
We embed it as explicit state passing over a stream of SAX events, in
two layers: a snapshot handler (`HState`), which appends the validated
entry by value, and a reference-semantics handler (`RState`), which
keeps the dict objects in an explicit heap and appends references, as
the Python lists do; `processEvents_sim` relates the two.
Python strings are Lean `String`s (one `Char` per Python character),
`len` is `String.length`, slicing `s[n:]` is `dropChars`, `str.strip()`
is `pyStrip`, and each `raise ValueError(...)` becomes a structured
error constructor carrying the same data that appears in the message.
The Python global list `prefix` is called `pre` here because Lean
reserves that identifier.
-/

namespace Migrate

/-- Characters stripped by Python's `str.strip()` (ASCII whitespace
including vertical tab and form feed). -/
def pyWhitespace (c : Char) : Bool :=
  c.isWhitespace || c == '\x0b' || c == '\x0c'

/-- Python `str.strip()`: remove leading and trailing whitespace. -/
def pyStrip (s : String) : String :=
  String.mk (((s.data.dropWhile pyWhitespace).reverse.dropWhile pyWhitespace).reverse)

/-- Python `s[:n]` (first `n` characters). -/
def takeChars (s : String) (n : Nat) : String :=
  String.mk (s.data.take n)

/-- Python `s[n:]` (all but the first `n` characters). -/
def dropChars (s : String) (n : Nat) : String :=
  String.mk (s.data.drop n)

/-- Python `str.lower()` (character-wise lowering, as used by
`re.IGNORECASE` matching of the ASCII base path). -/
def lowerStr (s : String) : String :=
  String.mk (s.data.map Char.toLower)

/-- Python `str.upper()`. -/
def upperStr (s : String) : String :=
  String.mk (s.data.map Char.toUpper)

/-- Succeeds iff `s` begins, case-insensitively, with `base`; models
`re.compile('^' + base, re.IGNORECASE).match(s)` (line 156-157 of `migrate.py`;
the base path `/obo/<idspace>` contains no regex metacharacters for
alphanumeric project ids, so the anchored pattern is a literal
case-insensitive prefix test). -/
def startsWithCI (s base : String) : Bool :=
  lowerStr (takeChars s base.length) == lowerStr base

/-- Models `id_re.sub('', s)` for the anchored case-insensitive pattern
`'^' + base`: remove the single possible leading match, otherwise
return `s` unchanged (line 161 of `migrate.py`). -/
def stripBase (base s : String) : String :=
  if startsWithCI s base then dropChars s base.length else s

/-- One alternative of `re.match(r'^(https?|ftp)\:\/\/.+', url)`:
the url starts with the literal scheme characters and `.+` then
consumes at least one character, where Python's `.` does not match a
newline (line 165 of `migrate.py`). -/
def schemeDotPlus (scheme : List Char) : List Char → Bool
  | [] => scheme.isEmpty && false
  | c :: rest =>
    match scheme with
    | [] => !(c == '\n')
    | d :: ds => c == d && schemeDotPlus ds rest

/-- The url validation of line 165 of `migrate.py`:
`re.match(r'^(https?|ftp)\:\/\/.+', url)` succeeds. -/
def urlOk (u : String) : Bool :=
  schemeDotPlus "http://".data u.data || schemeDotPlus "https://".data u.data ||
    schemeDotPlus "ftp://".data u.data

/-- Modelled from the spec's words (section 4.2 step 4), for comparison
with the code's `urlOk`: the URL "matches the pattern `(http|https|ftp)://`
followed by at least one character". -/
def urlSpecMatches (u : String) : Bool :=
  (takeChars u 7 == "http://" && decide (7 < u.length)) ||
    (takeChars u 8 == "https://" && decide (8 < u.length)) ||
    (takeChars u 6 == "ftp://" && decide (6 < u.length))

/-- The errors raised by `migrate.py` (each a Python `ValueError`),
with the data interpolated into the message. `emptyField` is the
"Empty <x> for <purl> n" error, `missingField` the "No <x> for <purl> n"
errors, `prefixMismatch` the base-url error of line 158, `invalidUrl`
the error of line 166, `unknownType` the error of line 179, and
`noEntries` the "No entries to migrate" error of line 106. -/
inductive MigError where
  | emptyField (field : String) (idx : Nat)
  | missingField (field : String) (idx : Nat)
  | prefixMismatch (idx : Nat) (ident : String) (base : String)
  | invalidUrl (idx : Nat) (url : String)
  | unknownType (ty : String) (idx : Nat)
  | noEntries
  deriving Repr, DecidableEq

/-- The 1-based record index carried in an error's message
(`noEntries` is raised after parsing and carries none). -/
def MigError.index : MigError → Option Nat
  | .emptyField _ i => some i
  | .missingField _ i => some i
  | .prefixMismatch i _ _ => some i
  | .invalidUrl i _ => some i
  | .unknownType _ i => some i
  | .noEntries => none

/-- The `self.entry` dictionary restricted to the three tracked keys
`id`, `type`, `url` (`none` = key absent). -/
structure Entry where
  id? : Option String
  type? : Option String
  url? : Option String
  deriving Repr, DecidableEq

/-- Fresh `self.entry = {}`. -/
def initEntry : Entry := ⟨none, none, none⟩

/-- Models `self.entry[name] = v` for a tracked `name` (line 149). -/
def setField (e : Entry) (name v : String) : Entry :=
  if name = "id" then { e with id? := some v }
  else if name = "type" then { e with type? := some v }
  else if name = "url" then { e with url? := some v }
  else e

/-- Lookup of `self.entry[name]` for a tracked `name`. -/
def getField (e : Entry) (name : String) : Option String :=
  if name = "id" then e.id?
  else if name = "type" then e.type?
  else if name = "url" then e.url?
  else none

/-- A validated entry as appended to the global lists: the keys of the
dictionary that the output rendering reads (`rule`, `id`, `url`). -/
structure Rule where
  rule : String
  id : String
  url : String
  deriving Repr, DecidableEq

/-- The handler state: `self.count`, `self.content`, `self.entry`, plus
the two global lists `exact` and `prefix` (here `pre`). -/
structure HState where
  count : Nat
  content : String
  entry : Entry
  exact : List Rule
  pre : List Rule
  deriving Repr, DecidableEq

/-- The state at the start of a run. -/
def initState : HState := ⟨0, "", initEntry, [], []⟩

/-- Membership test `name in ('type', 'id', 'url')` (line 146). -/
def tracked (name : String) : Bool :=
  name == "type" || name == "id" || name == "url"

/-- A SAX event delivered to the handler. -/
inductive Event where
  | startElement (name : String)
  | characters (s : String)
  | endElement (name : String)
  deriving Repr, DecidableEq

/-- Models `OCLCHandler.startElement` (lines 131-135): always clear the
content buffer; on a new `<purl>` also bump the 1-based record counter
and reset the entry dictionary. -/
def startElementF (st : HState) (name : String) : HState :=
  if name = "purl" then
    { st with content := "", count := st.count + 1, entry := initEntry }
  else
    { st with content := "" }

/-- Models `OCLCHandler.characters` (lines 138-139): accumulate text. -/
def charactersF (st : HState) (s : String) : HState :=
  { st with content := st.content ++ s }

/-- The validation performed at `</purl>` (lines 151-180), returning
the validated rule. The checks run in source order: id presence,
base-url prefix match and strip, url presence, url shape, type
presence, type mapping. -/
def validate (e : Entry) (idx : Nat) (base : String) : Except MigError Rule :=
  match e.id? with
  | none => .error (.missingField "id" idx)
  | some i =>
    if startsWithCI i base then
      match e.url? with
      | none => .error (.missingField "url" idx)
      | some u =>
        if urlOk u then
          match e.type? with
          | none => .error (.missingField "type" idx)
          | some t =>
            if t = "302" then .ok ⟨"exact", stripBase base i, u⟩
            else if t = "partial" then .ok ⟨"prefix", stripBase base i, u⟩
            else .error (.unknownType t idx)
        else .error (.invalidUrl idx u)
    else .error (.prefixMismatch idx i base)

/-- Models `OCLCHandler.endElement` (lines 145-180) with SNAPSHOT
semantics: a tracked field stores its trimmed content (empty content
is fatal); `</purl>` validates the entry, stores the stripped id back
into the dictionary, and appends the VALUE of the rule to the `exact`
or `pre` list. The Python code appends `self.entry` by reference
instead, so a tracked element ending between `</purl>` and the next
`<purl>` mutates the already-collected dict; `endElementRef` below
models that faithfully, and `processEvents_sim` proves this snapshot
handler coincides with the reference semantics exactly on streams
with no such stray captures (`noStrayCaptures`) — which covers every
per-record statement proved against this handler. -/
def endElementF (st : HState) (name : String) (base : String) :
    Except MigError HState :=
  if tracked name then
    if pyStrip st.content = "" then .error (.emptyField name st.count)
    else .ok { st with entry := setField st.entry name (pyStrip st.content) }
  else if name = "purl" then
    match validate st.entry st.count base with
    | .error e => .error e
    | .ok r =>
      let st' := { st with entry := { st.entry with id? := some r.id } }
      if r.rule = "exact" then .ok { st' with exact := st'.exact ++ [r] }
      else .ok { st' with pre := st'.pre ++ [r] }
  else .ok st

/-- Dispatch one SAX event. -/
def step (base : String) (st : HState) : Event → Except MigError HState
  | .startElement n => .ok (startElementF st n)
  | .characters s => .ok (charactersF st s)
  | .endElement n => endElementF st n base

/-- Run the handler over a stream of events (what `sax.parse` does),
stopping at the first error. -/
def processEvents (base : String) (st : HState) : List Event → Except MigError HState
  | [] => .ok st
  | ev :: evs =>
    match step base st ev with
    | .error e => .error e
    | .ok st' => processEvents base st' evs

/-- The sort key comparison used on the `prefix` list: descending
length of the post-strip `id` (line 104:
`sorted(prefix, key=lambda k: len(k['id']), reverse=True)`). -/
def ruleLE (a b : Rule) : Prop := b.id.length ≤ a.id.length

instance : DecidableRel ruleLE := fun a b => Nat.decLe b.id.length a.id.length

instance : IsTotal Rule ruleLE := ⟨fun a b => Nat.le_total b.id.length a.id.length⟩

instance : IsTrans Rule ruleLE := ⟨fun _ _ _ hab hbc => Nat.le_trans hbc hab⟩

/-- The stable descending sort of the `prefix` list. Python's `sorted`
is a stable sort, and `reverse=True` preserves stability; a stable sort
for a fixed key is unique, so insertion sort with the non-strict
descending comparison is the same function. -/
def sortRules (l : List Rule) : List Rule :=
  List.insertionSort ruleLE l

/-- Line 104: `entries = exact + sorted(prefix, ...)`. -/
def composeEntries (ex pre : List Rule) : List Rule :=
  ex ++ sortRules pre

/-- Models `entry_template % (entry['rule'], entry['id'], entry['url'])`
(lines 63-66, 112-113). -/
def renderEntry (r : Rule) : String :=
  "- " ++ r.rule ++ ": " ++ r.id ++ "\n  replacement: " ++ r.url ++ "\n\n"

/-- Models `header_template % (base_url, upper, base_url, lower, lower)`
(lines 47-61, 108-110). -/
def headerText (idspace : String) : String :=
  let lower := lowerStr idspace
  let upper := upperStr idspace
  let base := "/obo/" ++ lower
  "# PURL configuration for http://purl.brain-bican.org" ++ base ++
    "\n\nidspace: " ++ upper ++ "\nbase_url: " ++ base ++
    "\n\nproducts:\n- " ++ lower ++ ".owl: TODO\n- " ++ lower ++
    ".obo: TODO\n\nterm_browser: ontobee\nexample_terms:\n- TODO\n\nentries:\n"

/-- Models `main` after argument parsing (lines 100-115): run the parser, sort
and concatenate the lists, fail if empty, otherwise emit the header
followed by the rendered entries. The returned string is everything
written to the sink; an error means nothing was written (all validation
errors abort before the first write). -/
def runMigrate (idspace : String) (events : List Event) : Except MigError String :=
  let base := "/obo/" ++ lowerStr idspace
  match processEvents base initState events with
  | .error e => .error e
  | .ok st =>
    let entries := composeEntries st.exact st.pre
    if entries.length = 0 then .error .noEntries
    else .ok (headerText idspace ++ String.join (entries.map renderEntry))

/-! Properties of the prefix sort -/

/-- Inserting `a` into `l` commutes with filtering by id-length `n`:
the elements skipped by `orderedInsert` all have a strictly longer id
than `a`, so when `a.id.length = n` the insertion lands in front of
every other length-`n` element of `l`, and otherwise the filter is
unchanged. -/
theorem filter_orderedInsert (a : Rule) (l : List Rule) (n : Nat) :
    (List.orderedInsert ruleLE a l).filter (fun e => e.id.length == n) =
      if a.id.length = n then a :: l.filter (fun e => e.id.length == n)
      else l.filter (fun e => e.id.length == n) := by
  induction l with
  | nil =>
      by_cases h : a.id.length = n <;> simp [List.orderedInsert, h]
  | cons b bs ih =>
      by_cases hr : ruleLE a b
      · by_cases h : a.id.length = n <;>
          simp [List.orderedInsert, hr, List.filter_cons, h]
      · have hb : a.id.length < b.id.length :=
          Nat.lt_of_not_le (by simpa [ruleLE] using hr)
        by_cases h : a.id.length = n
        · have hbn : ¬ (b.id.length = n) := by omega
          simp [List.orderedInsert, hr, List.filter_cons, ih, h, hbn]
        · simp [List.orderedInsert, hr, List.filter_cons, ih, h]

/-- Stability of the descending sort: for any id length `n`, the
length-`n` entries appear in `sortRules l` exactly as they appear in
`l` (same elements, same relative order). -/
theorem filter_sortRules (l : List Rule) (n : Nat) :
    (sortRules l).filter (fun e => e.id.length == n) =
      l.filter (fun e => e.id.length == n) := by
  induction l with
  | nil => rfl
  | cons a l ih =>
      simp only [sortRules] at ih ⊢
      rw [List.insertionSort, filter_orderedInsert]
      by_cases h : a.id.length = n <;> simp [h, List.filter_cons, ih]

/-- The sorted prefix list is descending in id length. -/
theorem sorted_sortRules (l : List Rule) : List.Sorted ruleLE (sortRules l) :=
  List.sorted_insertionSort ruleLE l

/-- Sorting preserves the number of entries. -/
theorem length_sortRules (l : List Rule) : (sortRules l).length = l.length :=
  (List.perm_insertionSort ruleLE l).length_eq

/-! Helper lemmas about the handler -/

theorem mk_append (a b : List Char) : String.mk a ++ String.mk b = String.mk (a ++ b) :=
  rfl

/-- Splitting a string at character position `n`. -/
theorem takeChars_append_dropChars (s : String) (n : Nat) :
    takeChars s n ++ dropChars s n = s := by
  rw [takeChars, dropChars, mk_append, List.take_append_drop]

/-- Unfolded form of the `</purl>` handling: validate, then append. -/
theorem endElement_purl_eq (st : HState) (base : String) :
    endElementF st "purl" base =
      match validate st.entry st.count base with
      | .error e => .error e
      | .ok r =>
        if r.rule = "exact" then
          .ok { st with entry := { st.entry with id? := some r.id },
                        exact := st.exact ++ [r] }
        else
          .ok { st with entry := { st.entry with id? := some r.id },
                        pre := st.pre ++ [r] } :=
  rfl

/-- Exact shape of the successful validations (lines 151-180):
`validate` returns a rule precisely when all three fields are present,
the id begins case-insensitively with the base url, the url matches the
scheme pattern, and the type is `302` or `partial`; the returned rule
carries the stripped id, the url, and the corresponding kind label. -/
theorem validate_ok (e : Entry) (idx : Nat) (base : String) (r : Rule) :
    validate e idx base = .ok r ↔
      ∃ i u t, e.id? = some i ∧ e.url? = some u ∧ e.type? = some t ∧
        startsWithCI i base = true ∧ urlOk u = true ∧
        ((t = "302" ∧ r = ⟨"exact", stripBase base i, u⟩) ∨
         (t = "partial" ∧ r = ⟨"prefix", stripBase base i, u⟩)) := by
  unfold validate
  cases hi : e.id? with
  | none => simp
  | some i =>
    by_cases hp : startsWithCI i base
    · cases hu : e.url? with
      | none => simp [hp]
      | some u =>
        by_cases hok : urlOk u
        · cases ht : e.type? with
          | none => simp [hp, hok]
          | some t =>
            by_cases h1 : t = "302"
            · subst h1
              simp [hp, hok]
              exact eq_comm
            · by_cases h2 : t = "partial"
              · subst h2
                simp [hp, hok]
                exact eq_comm
              · simp [hp, hok, h1, h2]
        · simp [hp, hok]
    · simp [hp]

/-- Every error produced by `validate` carries the 1-based record
index that was passed in. -/
theorem validate_error_index (e : Entry) (idx : Nat) (base : String)
    (err : MigError) (h : validate e idx base = .error err) :
    err.index = some idx := by
  unfold validate at h
  repeat' split at h
  all_goals first
    | (injection h with h2; subst h2; rfl)
    | (exact absurd h (by simp))

/-! Concrete demonstration input (the scenario of spec section 8) -/

/-- Event stream for two records: record 1 has id `/obo/foo/short`,
type `partial`, url `http://example.org/s`; record 2 has id
`/obo/foo/branches/`, type `302`, url `http://example.org/b`. -/
def demoEvents : List Event :=
  [.startElement "purls",
   .startElement "purl",
   .startElement "id", .characters "/obo/foo/short", .endElement "id",
   .startElement "type", .characters "partial", .endElement "type",
   .startElement "target",
   .startElement "url", .characters "http://example.org/s", .endElement "url",
   .endElement "target",
   .endElement "purl",
   .startElement "purl",
   .startElement "id", .characters "/obo/foo/branches/", .endElement "id",
   .startElement "type", .characters "302", .endElement "type",
   .startElement "target",
   .startElement "url", .characters "http://example.org/b", .endElement "url",
   .endElement "target",
   .endElement "purl",
   .endElement "purls"]

/-- The text produced by a run on `demoEvents` with idspace `foo`. -/
def demoOut : String :=
  match runMigrate "foo" demoEvents with
  | .ok s => s
  | .error _ => ""

/-! Reference semantics of the entry dictionary.

The snapshot handler above appends the validated entry by value, but
lines 174 and 177 of `migrate.py` append `self.entry` itself — a
reference to the dict — and `self.entry` is rebound only at the next
`<purl>` start (line 135). A tracked element ending between a
`</purl>` and the next `<purl>` therefore writes through the alias
(line 149) and mutates an entry that is already in a list. The model
below makes this explicit: dict objects live in a heap, the lists hold
references (heap indices), and `self.entry` is the reference `cur`.
The agreement theorem `processEvents_sim` proves the snapshot handler
coincides with this reference semantics whenever no capture happens
through the alias. -/

/-- A Python dict object for one record: the three tracked keys plus
the `rule` key set at line 173/176 (`none` = key absent). -/
structure EntryObj where
  id? : Option String
  type? : Option String
  url? : Option String
  rule? : Option String
  deriving Repr, DecidableEq

/-- A fresh `{}` dict. -/
def initObj : EntryObj := ⟨none, none, none, none⟩

/-- The tracked-key part of a dict, as consumed by `validate`. -/
def EntryObj.toEntry (o : EntryObj) : Entry := ⟨o.id?, o.type?, o.url?⟩

/-- In-place `o[name] = v` for a tracked `name` (line 149). -/
def setFieldObj (o : EntryObj) (name v : String) : EntryObj :=
  if name = "id" then { o with id? := some v }
  else if name = "type" then { o with type? := some v }
  else if name = "url" then { o with url? := some v }
  else o

/-- Handler state with reference semantics: `heap` holds every dict
object ever created, `cur` is the reference held by `self.entry`, and
the two collection lists hold references, exactly as the Python lists
hold the dicts themselves. -/
structure RState where
  count : Nat
  content : String
  heap : List EntryObj
  cur : Nat
  exact : List Nat
  pre : List Nat
  deriving Repr, DecidableEq

/-- The state after `__init__`: one fresh dict, referenced by
`self.entry`, empty lists. -/
def initRState : RState := ⟨0, "", [initObj], 0, [], []⟩

/-- Dereference a dict (every reference the model creates is in
range, so the default is never reached on reachable states). -/
def objAt (st : RState) (i : Nat) : EntryObj := st.heap.getD i initObj

/-- Reference-semantics `startElement`: `<purl>` rebinds `self.entry`
to a fresh dict (line 135); every start clears the buffer. -/
def startElementRef (st : RState) (name : String) : RState :=
  if name = "purl" then
    { st with
      content := ""
      count := st.count + 1
      heap := st.heap ++ [initObj]
      cur := st.heap.length }
  else { st with content := "" }

/-- Reference-semantics `characters`. -/
def charactersRef (st : RState) (s : String) : RState :=
  { st with content := st.content ++ s }

/-- Reference-semantics `endElement`: a tracked field writes through
`cur` into the heap (so an aliased, already-collected dict mutates);
`</purl>` validates the current dict, writes the stripped id and the
rule label into it, and appends the REFERENCE `cur` to a list. -/
def endElementRef (st : RState) (name base : String) :
    Except MigError RState :=
  if tracked name then
    if pyStrip st.content = "" then .error (.emptyField name st.count)
    else .ok { st with
               heap := st.heap.set st.cur
                 (setFieldObj (objAt st st.cur) name (pyStrip st.content)) }
  else if name = "purl" then
    match validate (objAt st st.cur).toEntry st.count base with
    | .error e => .error e
    | .ok r =>
      let o := objAt st st.cur
      let st' := { st with
                   heap := st.heap.set st.cur
                     { o with
                       id? := some r.id
                       rule? := some r.rule } }
      if r.rule = "exact" then .ok { st' with exact := st'.exact ++ [st.cur] }
      else .ok { st' with pre := st'.pre ++ [st.cur] }
  else .ok st

/-- Dispatch one event in the reference semantics. -/
def stepRef (base : String) (st : RState) : Event → Except MigError RState
  | .startElement n => .ok (startElementRef st n)
  | .characters s => .ok (charactersRef st s)
  | .endElement n => endElementRef st n base

/-- Run the reference-semantics handler over a stream of events. -/
def processEventsRef (base : String) (st : RState) :
    List Event → Except MigError RState
  | [] => .ok st
  | ev :: evs =>
    match stepRef base st ev with
    | .error e => .error e
    | .ok st' => processEventsRef base st' evs

/-- Read a collected dict as the rendered rule (all three keys are
present in every collected dict). -/
def derefRule (st : RState) (i : Nat) : Rule :=
  ⟨(objAt st i).rule?.getD "", (objAt st i).id?.getD "", (objAt st i).url?.getD ""⟩

/-- The sort key comparison of line 104 on references: descending
current length of the dict's `id` value. -/
def idxLE (st : RState) (i j : Nat) : Prop :=
  ((objAt st j).id?.getD "").length ≤ ((objAt st i).id?.getD "").length

instance (st : RState) : DecidableRel (idxLE st) :=
  fun i j => Nat.decLe ((objAt st j).id?.getD "").length ((objAt st i).id?.getD "").length

/-- Line 104 on the reference lists: stable descending sort of the
collected `prefix` references by the dicts' current id lengths. -/
def sortIdx (st : RState) (l : List Nat) : List Nat :=
  List.insertionSort (idxLE st) l

/-- Lines 104 and 111-113 in the reference semantics: the final entry
sequence, read off the heap at output time (after any mutations). -/
def composeEntriesRef (st : RState) : List Rule :=
  st.exact.map (derefRule st) ++ (sortIdx st st.pre).map (derefRule st)

/-- The whole run (`main` after argument parsing) under reference
semantics. -/
def runMigrateRef (idspace : String) (events : List Event) :
    Except MigError String :=
  let base := "/obo/" ++ lowerStr idspace
  match processEventsRef base initRState events with
  | .error e => .error e
  | .ok st =>
    let entries := composeEntriesRef st
    if entries.length = 0 then .error .noEntries
    else .ok (headerText idspace ++ String.join (entries.map renderEntry))

/-- Aliasing-safety scan: `aliased` is true exactly between a
`</purl>` (which leaves `self.entry` aliased with the just-collected
list element) and the next `<purl>` (which rebinds it). The stream
has no stray captures when no tracked field ends and no `</purl>`
fires while aliased — every on-schema document satisfies this, since
there all tracked ends and all `</purl>` occur inside an open record.
-/
def noStrayCaptures (aliased : Bool) : List Event → Bool
  | [] => true
  | ev :: evs =>
    match ev with
    | .startElement n =>
        if n = "purl" then noStrayCaptures false evs
        else noStrayCaptures aliased evs
    | .characters _ => noStrayCaptures aliased evs
    | .endElement n =>
        if n = "purl" then !aliased && noStrayCaptures true evs
        else if tracked n then !aliased && noStrayCaptures aliased evs
        else noStrayCaptures aliased evs

/-! Agreement of the snapshot handler with the reference semantics. -/

theorem getD_set_self : ∀ (l : List EntryObj) (i : Nat) (x d : EntryObj),
    i < l.length → (l.set i x).getD i d = x
  | _ :: _, 0, _, _, _ => rfl
  | _ :: l, i + 1, x, d, h => getD_set_self l i x d (Nat.lt_of_succ_lt_succ h)
  | [], i, _, _, h => absurd h (Nat.not_lt_zero i)

theorem getD_set_ne : ∀ (l : List EntryObj) (i j : Nat) (x d : EntryObj),
    i ≠ j → (l.set i x).getD j d = l.getD j d
  | [], _, _, _, _, _ => rfl
  | _ :: _, 0, 0, _, _, h => absurd rfl h
  | _ :: _, 0, _ + 1, _, _, _ => rfl
  | _ :: _, _ + 1, 0, _, _, _ => rfl
  | _ :: l, i + 1, j + 1, x, d, h =>
    getD_set_ne l i j x d (fun hc => h (by rw [hc]))

theorem getD_append_last (l : List EntryObj) (x d : EntryObj) :
    (l ++ [x]).getD l.length d = x := by
  rw [List.getD_append_right l [x] d l.length (Nat.le_refl _), Nat.sub_self]
  rfl

/-- Writing a tracked key into a dict and then reading its tracked
part is the same as updating the tracked part. -/
theorem toEntry_setFieldObj (o : EntryObj) (n v : String) :
    (setFieldObj o n v).toEntry = setField o.toEntry n v := by
  unfold setFieldObj setField EntryObj.toEntry
  split_ifs <;> rfl

/-- Unfolded form of the reference-semantics `</purl>` handling. -/
theorem endElementRef_purl_eq (sr : RState) (base : String) :
    endElementRef sr "purl" base =
      match validate (objAt sr sr.cur).toEntry sr.count base with
      | .error e => .error e
      | .ok r =>
        if r.rule = "exact" then
          .ok { sr with
                heap := sr.heap.set sr.cur
                  { objAt sr sr.cur with id? := some r.id, rule? := some r.rule }
                exact := sr.exact ++ [sr.cur] }
        else
          .ok { sr with
                heap := sr.heap.set sr.cur
                  { objAt sr sr.cur with id? := some r.id, rule? := some r.rule }
                pre := sr.pre ++ [sr.cur] } :=
  rfl

/-- An element that is neither tracked nor `purl` is ignored by the
reference-semantics `endElement`. -/
theorem endElementRef_other (sr : RState) (n base : String)
    (h1 : tracked n = false) (h2 : n ≠ "purl") :
    endElementRef sr n base = .ok sr := by
  simp [endElementRef, h1, h2]

/-- An element that is neither tracked nor `purl` is ignored by the
snapshot `endElement`. -/
theorem endElementF_other (sh : HState) (n base : String)
    (h1 : tracked n = false) (h2 : n ≠ "purl") :
    endElementF sh n base = .ok sh := by
  simp [endElementF, h1, h2]

/-- Dereferencing commutes with `orderedInsert`, because the index
comparison is by definition the rule comparison of the dereferenced
values. -/
theorem map_orderedInsert_deref (st : RState) (a : Nat) (l : List Nat) :
    (List.orderedInsert (idxLE st) a l).map (derefRule st) =
      List.orderedInsert ruleLE (derefRule st a) (l.map (derefRule st)) := by
  induction l with
  | nil => rfl
  | cons b bs ih =>
    by_cases hr : idxLE st a b
    · have hr' : ruleLE (derefRule st a) (derefRule st b) := hr
      simp [List.orderedInsert, hr, hr']
    · have hr' : ¬ ruleLE (derefRule st a) (derefRule st b) := hr
      simp [List.orderedInsert, hr, hr', ih]

/-- Sorting the references by current id length and then dereferencing
is the same as dereferencing and then sorting the rules: line 104 on
dicts agrees with the snapshot sort. -/
theorem map_sortIdx (st : RState) (l : List Nat) :
    (sortIdx st l).map (derefRule st) = sortRules (l.map (derefRule st)) := by
  induction l with
  | nil => rfl
  | cons a l ih =>
    simp only [sortIdx, sortRules, List.insertionSort, List.map_cons] at *
    rw [map_orderedInsert_deref, ih]

/-- Dereferencing an index other than the written one ignores a heap
write (the written dict may also have been appended to either list).
-/
theorem derefRule_set_ne (sr : RState) (x : EntryObj) (ex2 pr2 : List Nat)
    (i : Nat) (hne : sr.cur ≠ i) :
    derefRule { sr with heap := sr.heap.set sr.cur x, exact := ex2, pre := pr2 } i
      = derefRule sr i := by
  unfold derefRule objAt
  dsimp only
  rw [getD_set_ne _ _ _ _ _ hne]

/-- Dereferencing the written index reads the written dict. -/
theorem derefRule_set_self (sr : RState) (x : EntryObj) (ex2 pr2 : List Nat)
    (hlt : sr.cur < sr.heap.length) :
    derefRule { sr with heap := sr.heap.set sr.cur x, exact := ex2, pre := pr2 } sr.cur
      = ⟨x.rule?.getD "", x.id?.getD "", x.url?.getD ""⟩ := by
  unfold derefRule objAt
  dsimp only
  rw [getD_set_self _ _ _ _ hlt]

/-- Correspondence between a reference-semantics state and a snapshot
state. `aliased` is true between a `</purl>` and the next `<purl>`,
when `self.entry` still references the just-collected dict; when it is
false, the current dict is not in either list, so heap writes through
`cur` cannot disturb collected entries. -/
structure Sim (aliased : Bool) (sr : RState) (sh : HState) : Prop where
  count_eq : sr.count = sh.count
  content_eq : sr.content = sh.content
  entry_eq : (objAt sr sr.cur).toEntry = sh.entry
  exact_eq : sr.exact.map (derefRule sr) = sh.exact
  pre_eq : sr.pre.map (derefRule sr) = sh.pre
  cur_lt : sr.cur < sr.heap.length
  exact_lt : ∀ i ∈ sr.exact, i < sr.heap.length
  pre_lt : ∀ i ∈ sr.pre, i < sr.heap.length
  not_mem : aliased = false → sr.cur ∉ sr.exact ∧ sr.cur ∉ sr.pre

/-- One `startElement` event preserves the correspondence; `<purl>`
clears the aliasing. -/
theorem sim_startElement (n : String) (aliased : Bool) (sr : RState)
    (sh : HState) (h : Sim aliased sr sh) :
    Sim (if n = "purl" then false else aliased)
      (startElementRef sr n) (startElementF sh n) := by
  by_cases hn : n = "purl"
  · subst hn
    rw [if_pos rfl]
    unfold startElementRef startElementF
    rw [if_pos rfl, if_pos rfl]
    have hobj : ∀ i, i < sr.heap.length →
        (sr.heap ++ [initObj]).getD i initObj = sr.heap.getD i initObj :=
      fun i hi => List.getD_append _ _ _ _ hi
    refine ⟨?_, rfl, ?_, ?_, ?_, ?_, ?_, ?_, ?_⟩
    · show sr.count + 1 = sh.count + 1
      rw [h.count_eq]
    · show EntryObj.toEntry ((sr.heap ++ [initObj]).getD sr.heap.length initObj) = initEntry
      rw [getD_append_last]
      rfl
    · show sr.exact.map _ = sh.exact
      rw [← h.exact_eq]
      exact List.map_congr_left fun i hi => by
        unfold derefRule objAt
        rw [hobj i (h.exact_lt i hi)]
    · show sr.pre.map _ = sh.pre
      rw [← h.pre_eq]
      exact List.map_congr_left fun i hi => by
        unfold derefRule objAt
        rw [hobj i (h.pre_lt i hi)]
    · show sr.heap.length < (sr.heap ++ [initObj]).length
      simp
    · intro i hi
      have := h.exact_lt i hi
      simp only [List.length_append, List.length_cons, List.length_nil]
      omega
    · intro i hi
      have := h.pre_lt i hi
      simp only [List.length_append, List.length_cons, List.length_nil]
      omega
    · intro _
      constructor
      · intro hmem
        exact absurd (h.exact_lt _ hmem) (Nat.lt_irrefl _)
      · intro hmem
        exact absurd (h.pre_lt _ hmem) (Nat.lt_irrefl _)
  · rw [if_neg hn]
    unfold startElementRef startElementF
    rw [if_neg hn, if_neg hn]
    exact ⟨h.count_eq, rfl, h.entry_eq, h.exact_eq, h.pre_eq, h.cur_lt,
      h.exact_lt, h.pre_lt, h.not_mem⟩

/-- One `characters` event preserves the correspondence. -/
theorem sim_characters (s : String) (aliased : Bool) (sr : RState)
    (sh : HState) (h : Sim aliased sr sh) :
    Sim aliased (charactersRef sr s) (charactersF sh s) := by
  unfold charactersRef charactersF
  refine ⟨h.count_eq, ?_, h.entry_eq, h.exact_eq, h.pre_eq, h.cur_lt,
    h.exact_lt, h.pre_lt, h.not_mem⟩
  show sr.content ++ s = sh.content ++ s
  rw [h.content_eq]

/-- A tracked field end, processed while the current dict is not
aliased, errs the same way in both models or preserves the
correspondence: the through-`cur` write cannot reach a collected
entry. -/
theorem sim_endElement_tracked (n base : String) (sr : RState) (sh : HState)
    (htr : tracked n = true) (h : Sim false sr sh) :
    (endElementRef sr n base = .error (.emptyField n sh.count) ∧
     endElementF sh n base = .error (.emptyField n sh.count)) ∨
    (∃ sr' sh', endElementRef sr n base = .ok sr' ∧
      endElementF sh n base = .ok sh' ∧ Sim false sr' sh') := by
  have hcur_notin := h.not_mem rfl
  unfold endElementRef endElementF
  rw [if_pos htr, if_pos htr]
  by_cases he : pyStrip sr.content = ""
  · left
    have he2 : pyStrip sh.content = "" := by rw [← h.content_eq]; exact he
    rw [if_pos he, if_pos he2, h.count_eq]
    exact ⟨rfl, rfl⟩
  · right
    have he2 : ¬ pyStrip sh.content = "" := fun hc => he (by rw [h.content_eq]; exact hc)
    rw [if_neg he, if_neg he2]
    refine ⟨_, _, rfl, rfl, ?_⟩
    refine ⟨h.count_eq, h.content_eq, ?_, ?_, ?_, ?_, ?_, ?_, ?_⟩
    · show EntryObj.toEntry ((sr.heap.set sr.cur _).getD sr.cur initObj) = _
      rw [getD_set_self _ _ _ _ h.cur_lt, toEntry_setFieldObj, h.entry_eq,
        h.content_eq]
    · show sr.exact.map _ = sh.exact
      rw [← h.exact_eq]
      exact List.map_congr_left fun i hi =>
        derefRule_set_ne sr _ sr.exact sr.pre i
          (fun hc => hcur_notin.1 (by rw [hc]; exact hi))
    · show sr.pre.map _ = sh.pre
      rw [← h.pre_eq]
      exact List.map_congr_left fun i hi =>
        derefRule_set_ne sr _ sr.exact sr.pre i
          (fun hc => hcur_notin.2 (by rw [hc]; exact hi))
    · show sr.cur < (sr.heap.set sr.cur _).length
      simpa using h.cur_lt
    · intro i hi
      have := h.exact_lt i hi
      simpa using this
    · intro i hi
      have := h.pre_lt i hi
      simpa using this
    · intro _
      exact hcur_notin

/-- A `</purl>`, processed while the current dict is not aliased,
errs identically in both models or collects the same rule and leaves
the dict aliased with the new list element. -/
theorem sim_endElement_purl (base : String) (sr : RState) (sh : HState)
    (h : Sim false sr sh) :
    (∃ e, endElementRef sr "purl" base = .error e ∧
      endElementF sh "purl" base = .error e) ∨
    (∃ sr' sh', endElementRef sr "purl" base = .ok sr' ∧
      endElementF sh "purl" base = .ok sh' ∧ Sim true sr' sh') := by
  have hcur_notin := h.not_mem rfl
  have hsame : validate (objAt sr sr.cur).toEntry sr.count base =
      validate sh.entry sh.count base := by
    rw [h.entry_eq, h.count_eq]
  rw [endElementRef_purl_eq, endElement_purl_eq, hsame]
  cases hv : validate sh.entry sh.count base with
  | error e => exact Or.inl ⟨e, rfl, rfl⟩
  | ok r =>
    right
    dsimp only
    have hurl : (objAt sr sr.cur).url? = some r.url := by
      have hv2 : validate (objAt sr sr.cur).toEntry sr.count base = .ok r := by
        rw [hsame, hv]
      rcases (validate_ok _ _ _ _).1 hv2 with ⟨i, u, t, -, hu, -, -, -, hc⟩
      rcases hc with ⟨-, rfl⟩ | ⟨-, rfl⟩ <;> exact hu
    by_cases hr : r.rule = "exact"
    · rw [if_pos hr, if_pos hr]
      refine ⟨_, _, rfl, rfl, ?_⟩
      refine ⟨h.count_eq, h.content_eq, ?_, ?_, ?_, ?_, ?_, ?_, ?_⟩
      · show EntryObj.toEntry ((sr.heap.set sr.cur _).getD sr.cur initObj) = _
        rw [getD_set_self _ _ _ _ h.cur_lt, ← h.entry_eq]
        rfl
      · show (sr.exact ++ [sr.cur]).map _ = sh.exact ++ [r]
        rw [List.map_append, List.map_cons, List.map_nil, ← h.exact_eq]
        congr 1
        · exact List.map_congr_left fun i hi =>
            derefRule_set_ne sr _ (sr.exact ++ [sr.cur]) sr.pre i
              (fun hc => hcur_notin.1 (by rw [hc]; exact hi))
        · rw [derefRule_set_self sr _ (sr.exact ++ [sr.cur]) sr.pre h.cur_lt]
          dsimp only
          rw [hurl]
          rfl
      · show sr.pre.map _ = sh.pre
        rw [← h.pre_eq]
        exact List.map_congr_left fun i hi =>
          derefRule_set_ne sr _ (sr.exact ++ [sr.cur]) sr.pre i
            (fun hc => hcur_notin.2 (by rw [hc]; exact hi))
      · show sr.cur < (sr.heap.set sr.cur _).length
        simpa using h.cur_lt
      · intro i hi
        rcases List.mem_append.1 hi with hi | hi
        · simpa using h.exact_lt i hi
        · simp only [List.mem_singleton] at hi
          subst hi
          simpa using h.cur_lt
      · intro i hi
        simpa using h.pre_lt i hi
      · intro hc
        exact absurd hc (by simp)
    · rw [if_neg hr, if_neg hr]
      refine ⟨_, _, rfl, rfl, ?_⟩
      refine ⟨h.count_eq, h.content_eq, ?_, ?_, ?_, ?_, ?_, ?_, ?_⟩
      · show EntryObj.toEntry ((sr.heap.set sr.cur _).getD sr.cur initObj) = _
        rw [getD_set_self _ _ _ _ h.cur_lt, ← h.entry_eq]
        rfl
      · show sr.exact.map _ = sh.exact
        rw [← h.exact_eq]
        exact List.map_congr_left fun i hi =>
          derefRule_set_ne sr _ sr.exact (sr.pre ++ [sr.cur]) i
            (fun hc => hcur_notin.1 (by rw [hc]; exact hi))
      · show (sr.pre ++ [sr.cur]).map _ = sh.pre ++ [r]
        rw [List.map_append, List.map_cons, List.map_nil, ← h.pre_eq]
        congr 1
        · exact List.map_congr_left fun i hi =>
            derefRule_set_ne sr _ sr.exact (sr.pre ++ [sr.cur]) i
              (fun hc => hcur_notin.2 (by rw [hc]; exact hi))
        · rw [derefRule_set_self sr _ sr.exact (sr.pre ++ [sr.cur]) h.cur_lt]
          dsimp only
          rw [hurl]
          rfl
      · show sr.cur < (sr.heap.set sr.cur _).length
        simpa using h.cur_lt
      · intro i hi
        simpa using h.exact_lt i hi
      · intro i hi
        rcases List.mem_append.1 hi with hi | hi
        · simpa using h.pre_lt i hi
        · simp only [List.mem_singleton] at hi
          subst hi
          simpa using h.cur_lt
      · intro hc
        exact absurd hc (by simp)

/-- A successful step unfolds one cons in the reference run. -/
theorem processEventsRef_cons_ok (base : String) (sr sr1 : RState) (ev : Event)
    (evs : List Event) (h : stepRef base sr ev = .ok sr1) :
    processEventsRef base sr (ev :: evs) = processEventsRef base sr1 evs := by
  have e0 : processEventsRef base sr (ev :: evs) =
      match stepRef base sr ev with
      | .error e => .error e
      | .ok st' => processEventsRef base st' evs := rfl
  rw [e0, h]

/-- A failing step aborts the reference run. -/
theorem processEventsRef_cons_error (base : String) (sr : RState)
    (e : MigError) (ev : Event) (evs : List Event)
    (h : stepRef base sr ev = .error e) :
    processEventsRef base sr (ev :: evs) = .error e := by
  have e0 : processEventsRef base sr (ev :: evs) =
      match stepRef base sr ev with
      | .error e => .error e
      | .ok st' => processEventsRef base st' evs := rfl
  rw [e0, h]

/-- A successful step unfolds one cons in the snapshot run. -/
theorem processEvents_cons_ok (base : String) (sh sh1 : HState) (ev : Event)
    (evs : List Event) (h : step base sh ev = .ok sh1) :
    processEvents base sh (ev :: evs) = processEvents base sh1 evs := by
  have e0 : processEvents base sh (ev :: evs) =
      match step base sh ev with
      | .error e => .error e
      | .ok st' => processEvents base st' evs := rfl
  rw [e0, h]

/-- A failing step aborts the snapshot run. -/
theorem processEvents_cons_error (base : String) (sh : HState)
    (e : MigError) (ev : Event) (evs : List Event)
    (h : step base sh ev = .error e) :
    processEvents base sh (ev :: evs) = .error e := by
  have e0 : processEvents base sh (ev :: evs) =
      match step base sh ev with
      | .error e => .error e
      | .ok st' => processEvents base st' evs := rfl
  rw [e0, h]

/-- The simulation: over any stream with no stray captures, the
reference semantics and the snapshot handler either fail with the same
error or succeed in corresponding states. -/
theorem processEvents_sim (base : String) :
    ∀ (evs : List Event) (aliased : Bool) (sr : RState) (sh : HState),
      noStrayCaptures aliased evs = true → Sim aliased sr sh →
      (∃ e, processEventsRef base sr evs = .error e ∧
        processEvents base sh evs = .error e) ∨
      (∃ sr' sh' al', processEventsRef base sr evs = .ok sr' ∧
        processEvents base sh evs = .ok sh' ∧ Sim al' sr' sh') := by
  intro evs
  induction evs with
  | nil =>
    intro aliased sr sh _ h
    exact Or.inr ⟨sr, sh, aliased, rfl, rfl, h⟩
  | cons ev evs ih =>
    intro aliased sr sh hscan h
    cases ev with
    | startElement n =>
      have hscan' : noStrayCaptures (if n = "purl" then false else aliased) evs = true := by
        by_cases hn : n = "purl" <;> simpa [noStrayCaptures, hn] using hscan
      exact ih (if n = "purl" then false else aliased) _ _ hscan'
        (sim_startElement n aliased sr sh h)
    | characters s =>
      have hscan' : noStrayCaptures aliased evs = true := by
        simpa [noStrayCaptures] using hscan
      exact ih aliased _ _ hscan' (sim_characters s aliased sr sh h)
    | endElement n =>
      by_cases hn : n = "purl"
      · subst hn
        have hscan2 : aliased = false ∧ noStrayCaptures true evs = true := by
          simpa [noStrayCaptures] using hscan
        obtain ⟨hal, hscan'⟩ := hscan2
        subst hal
        rcases sim_endElement_purl base sr sh h with ⟨e, hr, hh⟩ | ⟨sr1, sh1, hr, hh, hsim⟩
        · exact Or.inl ⟨e,
            processEventsRef_cons_error base sr e (.endElement "purl") evs hr,
            processEvents_cons_error base sh e (.endElement "purl") evs hh⟩
        · rw [processEventsRef_cons_ok base sr sr1 (.endElement "purl") evs hr,
            processEvents_cons_ok base sh sh1 (.endElement "purl") evs hh]
          exact ih true sr1 sh1 hscan' hsim
      · by_cases htr : tracked n
        · have hscan2 : aliased = false ∧ noStrayCaptures aliased evs = true := by
            constructor
            · by_cases ha : aliased = false
              · exact ha
              · exfalso
                have : aliased = true := by
                  cases aliased
                  · exact absurd rfl ha
                  · rfl
                subst this
                simp [noStrayCaptures, hn, htr] at hscan
            · have hal : aliased = false := by
                by_cases ha : aliased = false
                · exact ha
                · exfalso
                  have : aliased = true := by
                    cases aliased
                    · exact absurd rfl ha
                    · rfl
                  subst this
                  simp [noStrayCaptures, hn, htr] at hscan
              subst hal
              simpa [noStrayCaptures, hn, htr] using hscan
          obtain ⟨hal, hscan'⟩ := hscan2
          subst hal
          rcases sim_endElement_tracked n base sr sh htr h with ⟨hr, hh⟩ | ⟨sr1, sh1, hr, hh, hsim⟩
          · exact Or.inl ⟨.emptyField n sh.count,
              processEventsRef_cons_error base sr _ (.endElement n) evs hr,
              processEvents_cons_error base sh _ (.endElement n) evs hh⟩
          · rw [processEventsRef_cons_ok base sr sr1 (.endElement n) evs hr,
              processEvents_cons_ok base sh sh1 (.endElement n) evs hh]
            exact ih false sr1 sh1 hscan' hsim
        · have htr' : tracked n = false := eq_false_of_ne_true htr
          have hscan' : noStrayCaptures aliased evs = true := by
            simpa [noStrayCaptures, hn, htr'] using hscan
          rw [processEventsRef_cons_ok base sr sr (.endElement n) evs
              (endElementRef_other sr n base htr' hn),
            processEvents_cons_ok base sh sh (.endElement n) evs
              (endElementF_other sh n base htr' hn)]
          exact ih aliased sr sh hscan' h

/-- Corresponding final states compose the same entry sequence:
line 104 on the reference lists agrees with the snapshot composition.
-/
theorem composeEntriesRef_eq (sr : RState) (sh : HState) (al : Bool)
    (h : Sim al sr sh) :
    composeEntriesRef sr = composeEntries sh.exact sh.pre := by
  unfold composeEntriesRef composeEntries
  rw [map_sortIdx, h.exact_eq, h.pre_eq]

/-- On any stream with no stray captures, the reference-semantics run
and the snapshot run produce identical results (same error or same
output text). -/
theorem runMigrate_agree (idspace : String) (evs : List Event)
    (h : noStrayCaptures false evs = true) :
    runMigrateRef idspace evs = runMigrate idspace evs := by
  have hsim : Sim false initRState initState :=
    ⟨rfl, rfl, rfl, rfl, rfl, Nat.zero_lt_one,
     fun i hi => absurd hi (List.not_mem_nil i),
     fun i hi => absurd hi (List.not_mem_nil i),
     fun _ => ⟨List.not_mem_nil 0, List.not_mem_nil 0⟩⟩
  rcases processEvents_sim ("/obo/" ++ lowerStr idspace) evs false initRState
      initState h hsim with ⟨e, hr, hh⟩ | ⟨sr', sh', al', hr, hh, hs⟩
  · simp only [runMigrateRef, runMigrate]
    rw [hr, hh]
  · simp only [runMigrateRef, runMigrate]
    rw [hr, hh]
    dsimp only
    rw [composeEntriesRef_eq sr' sh' al' hs]

/-! C1: order of the emitted entries -/

/-- C1 (amended): for every run with no stray captures (no tracked
field end and no record end between a `</purl>` and the next `<purl>`
— every on-schema document qualifies) that completes successfully, the
emitted sequence of entries is the collected `exact` list in input
encounter order followed by `sortRules` of the collected `prefix`
list, where `sortRules` is descending in post-strip id length and
stable (for every length `n` the length-`n` entries keep exactly their
input order); since the output is `exact ++ sortRules pre`, every
exact entry precedes every prefix entry regardless of input order.
The first conjunct discharges the reference semantics: with no stray
captures the run that appends `self.entry` by reference coincides with
the snapshot run, so the ordering conjuncts about the snapshot run
describe the program. The proviso is necessary: without it a stray
capture mutates an already-collected entry through the alias and the
claimed order fails (see the counterexample). -/
theorem c1_entry_order :
    (∀ idspace evs, noStrayCaptures false evs = true →
      runMigrateRef idspace evs = runMigrate idspace evs) ∧
    (∀ idspace evs out, runMigrate idspace evs = .ok out →
      ∃ st, processEvents ("/obo/" ++ lowerStr idspace) initState evs = .ok st ∧
        out = headerText idspace ++
          String.join ((composeEntries st.exact st.pre).map renderEntry) ∧
        composeEntries st.exact st.pre = st.exact ++ sortRules st.pre) ∧
    (∀ l, List.Sorted ruleLE (sortRules l)) ∧
    (∀ l n, (sortRules l).filter (fun e => e.id.length == n) =
      l.filter (fun e => e.id.length == n)) := by
  refine ⟨runMigrate_agree, ?_, sorted_sortRules, filter_sortRules⟩
  intro idspace evs out h
  simp only [runMigrate] at h
  cases hp : processEvents ("/obo/" ++ lowerStr idspace) initState evs with
  | error e => rw [hp] at h; exact absurd h (by simp)
  | ok st =>
    rw [hp] at h
    refine ⟨st, rfl, ?_, rfl⟩
    by_cases hlen : (composeEntries st.exact st.pre).length = 0
    · simp [hlen] at h
    · simp [hlen] at h
      exact h.symm

/-- Witness for C1 at the concrete two-record input, which has no
stray captures: the reference run agrees with the snapshot run there,
and the snapshot run emits the composed sequence. -/
theorem c1_entry_order_witness :
    runMigrateRef "foo" demoEvents = runMigrate "foo" demoEvents ∧
    ∃ st, processEvents ("/obo/" ++ lowerStr "foo") initState demoEvents = .ok st ∧
      demoOut = headerText "foo" ++
        String.join ((composeEntries st.exact st.pre).map renderEntry) ∧
      composeEntries st.exact st.pre = st.exact ++ sortRules st.pre :=
  ⟨c1_entry_order.1 "foo" demoEvents rfl,
   c1_entry_order.2.1 "foo" demoEvents demoOut rfl⟩

/-- Event stream with a stray `<id>/x</id>` between the two records:
record 1 has post-strip id `/aaaaaaa` (length 8), the stray capture
overwrites it in place, record 2 has post-strip id `/bbb` (length 4).
-/
def aliasEvents : List Event :=
  [.startElement "purl",
   .startElement "id", .characters "/obo/foo/aaaaaaa", .endElement "id",
   .startElement "type", .characters "partial", .endElement "type",
   .startElement "url", .characters "http://a", .endElement "url",
   .endElement "purl",
   .startElement "id", .characters "/x", .endElement "id",
   .startElement "purl",
   .startElement "id", .characters "/obo/foo/bbb", .endElement "id",
   .startElement "type", .characters "partial", .endElement "type",
   .startElement "url", .characters "http://b", .endElement "url",
   .endElement "purl"]

/-- C1 counterexample to the claim as stated: on `aliasEvents` the run
completes successfully, the two records validate to the prefix rules
`/aaaaaaa` (length 8) and `/bbb` (length 4), so the claimed emitted
sequence is `/aaaaaaa` before `/bbb`; but the stray `<id>` wrote `/x`
through the reference held by the collected list (line 149 writing
through `self.entry`, appended at line 177), and the program instead
emits `/bbb` before `/x` — the length-8 post-strip id is not first,
and the validated rules are not what is emitted. -/
theorem c1_entry_order_counterexample :
    noStrayCaptures false aliasEvents = false ∧
    (∃ st, processEventsRef "/obo/foo" initRState aliasEvents = .ok st ∧
      composeEntriesRef st =
        [⟨"prefix", "/bbb", "http://b"⟩, ⟨"prefix", "/x", "http://a"⟩]) ∧
    runMigrateRef "foo" aliasEvents =
      .ok (headerText "foo" ++ String.join
        (([⟨"prefix", "/bbb", "http://b"⟩,
           ⟨"prefix", "/x", "http://a"⟩] : List Rule).map renderEntry)) ∧
    validate ⟨some "/obo/foo/aaaaaaa", some "partial", some "http://a"⟩
        1 "/obo/foo" = .ok ⟨"prefix", "/aaaaaaa", "http://a"⟩ ∧
    validate ⟨some "/obo/foo/bbb", some "partial", some "http://b"⟩
        2 "/obo/foo" = .ok ⟨"prefix", "/bbb", "http://b"⟩ ∧
    sortRules [⟨"prefix", "/aaaaaaa", "http://a"⟩, ⟨"prefix", "/bbb", "http://b"⟩] =
      [⟨"prefix", "/aaaaaaa", "http://a"⟩, ⟨"prefix", "/bbb", "http://b"⟩] ∧
    ([⟨"prefix", "/bbb", "http://b"⟩, ⟨"prefix", "/x", "http://a"⟩] : List Rule) ≠
      [⟨"prefix", "/aaaaaaa", "http://a"⟩, ⟨"prefix", "/bbb", "http://b"⟩] :=
  ⟨rfl, ⟨_, rfl, rfl⟩, rfl, rfl, rfl, rfl, by decide⟩

/-! C2: rule-type mapping -/

/-- C2: for a completed record that passes the earlier validation steps
(id captured and prefix-matching, url captured and well-shaped),
rule-type `"302"` appends an entry with kind label `exact` to the exact
list, `"partial"` appends an entry with kind label `prefix` to the
prefix list, any other rule-type aborts with the unknown-type error
carrying that value, and validation can produce no third kind. -/
theorem c2_type_mapping (st : HState) (base i u : String)
    (hid : st.entry.id? = some i) (hpre : startsWithCI i base = true)
    (hurl : st.entry.url? = some u) (hu : urlOk u = true) :
    (st.entry.type? = some "302" →
      endElementF st "purl" base =
        .ok { st with entry := { st.entry with id? := some (stripBase base i) },
                      exact := st.exact ++ [⟨"exact", stripBase base i, u⟩] }) ∧
    (st.entry.type? = some "partial" →
      endElementF st "purl" base =
        .ok { st with entry := { st.entry with id? := some (stripBase base i) },
                      pre := st.pre ++ [⟨"prefix", stripBase base i, u⟩] }) ∧
    (∀ t, st.entry.type? = some t → t ≠ "302" → t ≠ "partial" →
      endElementF st "purl" base = .error (MigError.unknownType t st.count)) ∧
    (∀ r, validate st.entry st.count base = .ok r →
      r.rule = "exact" ∨ r.rule = "prefix") := by
  refine ⟨?_, ?_, ?_, ?_⟩
  · intro ht
    have hv : validate st.entry st.count base = .ok ⟨"exact", stripBase base i, u⟩ := by
      simp [validate, hid, hpre, hurl, hu, ht]
    rw [endElement_purl_eq, hv]
    simp
  · intro ht
    have hv : validate st.entry st.count base = .ok ⟨"prefix", stripBase base i, u⟩ := by
      simp [validate, hid, hpre, hurl, hu, ht]
    rw [endElement_purl_eq, hv]
    simp
  · intro t ht h1 h2
    have hv : validate st.entry st.count base = .error (.unknownType t st.count) := by
      simp [validate, hid, hpre, hurl, hu, ht, h1, h2]
    rw [endElement_purl_eq, hv]
  · intro r hr
    rcases (validate_ok _ _ _ _).1 hr with ⟨i', u', t', -, -, -, -, -, hc⟩
    rcases hc with ⟨-, rfl⟩ | ⟨-, rfl⟩
    · exact Or.inl rfl
    · exact Or.inr rfl

/-- Witness for C2: a record with id `/obo/foo/a`, type `302`, url
`http://x` is appended to the exact list with kind label `exact`. -/
theorem c2_type_mapping_witness :
    endElementF ⟨1, "", ⟨some "/obo/foo/a", some "302", some "http://x"⟩, [], []⟩
        "purl" "/obo/foo" =
      .ok ⟨1, "", ⟨some "/a", some "302", some "http://x"⟩,
           [⟨"exact", "/a", "http://x"⟩], []⟩ :=
  (c2_type_mapping ⟨1, "", ⟨some "/obo/foo/a", some "302", some "http://x"⟩, [], []⟩
    "/obo/foo" "/obo/foo/a" "http://x" rfl rfl rfl rfl).1 rfl

/-! C3: base-path check and strip -/

/-- C3: for a completed record whose identifier was captured, an
identifier that does not begin case-insensitively with the base path
aborts the `</purl>` handling with the prefix-mismatch error (the
record is never silently dropped), and an identifier that does begin
with it is split as `i = takeChars i base.length ++ dropChars i
base.length`, where the removed lead matches the base path
case-insensitively and the remainder is the id stored in the
validated rule. -/
theorem c3_prefix_check (st : HState) (base i : String)
    (hid : st.entry.id? = some i) :
    (startsWithCI i base = false →
      endElementF st "purl" base =
        .error (MigError.prefixMismatch st.count i base)) ∧
    (startsWithCI i base = true →
      takeChars i base.length ++ dropChars i base.length = i ∧
      lowerStr (takeChars i base.length) = lowerStr base ∧
      stripBase base i = dropChars i base.length ∧
      ∀ r, validate st.entry st.count base = .ok r →
        r.id = dropChars i base.length) := by
  constructor
  · intro h
    have hv : validate st.entry st.count base =
        .error (.prefixMismatch st.count i base) := by
      simp [validate, hid, h]
    rw [endElement_purl_eq, hv]
  · intro h
    have hstrip : stripBase base i = dropChars i base.length := by
      simp [stripBase, h]
    refine ⟨takeChars_append_dropChars i base.length, ?_, hstrip, ?_⟩
    · have h' := h
      simp only [startsWithCI, beq_iff_eq] at h'
      exact h'
    · intro r hr
      rcases (validate_ok _ _ _ _).1 hr with ⟨i', u', t', hi', -, -, -, -, hc⟩
      rw [hid, Option.some.injEq] at hi'
      subst hi'
      rcases hc with ⟨-, rfl⟩ | ⟨-, rfl⟩ <;> exact hstrip

/-- Witness for C3: a record whose id `/nope` lacks the base path
aborts with the prefix-mismatch error. -/
theorem c3_prefix_check_witness :
    endElementF ⟨2, "", ⟨some "/nope", some "302", some "http://x"⟩, [], []⟩
        "purl" "/obo/foo" =
      .error (MigError.prefixMismatch 2 "/nope" "/obo/foo") :=
  (c3_prefix_check ⟨2, "", ⟨some "/nope", some "302", some "http://x"⟩, [], []⟩
    "/obo/foo" "/nope" rfl).1 rfl

/-! C4: url validation -/

/-- Head of a character list exists and is not a newline
(what `.+` requires at the position after the scheme). -/
def nonNewlineHead : List Char → Bool
  | [] => false
  | c :: _ => !(c == '\n')

/-- The amended url pattern: the literal scheme followed by at least
one non-newline character. -/
def schemeThenNonNewline (scheme u : String) : Bool :=
  (u.data.take scheme.data.length == scheme.data) &&
    nonNewlineHead (u.data.drop scheme.data.length)

/-- The amended version of the spec's url pattern (section 4.2 step 4):
`(http|https|ftp)://` followed by at least one NON-NEWLINE character. -/
def urlAmendedMatches (u : String) : Bool :=
  schemeThenNonNewline "http://" u || schemeThenNonNewline "https://" u ||
    schemeThenNonNewline "ftp://" u

/-- One regex alternative, rewritten as prefix test plus look at the
next character. -/
theorem schemeDotPlus_eq (scheme rest : List Char) :
    schemeDotPlus scheme rest =
      ((rest.take scheme.length == scheme) &&
        nonNewlineHead (rest.drop scheme.length)) := by
  induction scheme generalizing rest with
  | nil => cases rest <;> rfl
  | cons d ds ih =>
    cases rest with
    | nil => rfl
    | cons c cs =>
      show (c == d && schemeDotPlus ds cs) = _
      rw [ih]
      simp [List.take_succ_cons, List.drop_succ_cons, Bool.and_assoc]

/-- The code's url check equals the amended pattern. -/
theorem urlOk_eq_amended (u : String) : urlOk u = urlAmendedMatches u := by
  unfold urlOk urlAmendedMatches schemeThenNonNewline
  rw [schemeDotPlus_eq, schemeDotPlus_eq, schemeDotPlus_eq]

/-- Event stream for a single record with an ftp url
(the scenario of spec section 8). -/
def ftpEvents : List Event :=
  [.startElement "purl",
   .startElement "id", .characters "/obo/foo/f", .endElement "id",
   .startElement "type", .characters "partial", .endElement "type",
   .startElement "url", .characters "ftp://files.example.org/x", .endElement "url",
   .endElement "purl"]

/-- Event stream for a single record whose url has a newline directly
after the scheme (the newline is internal, so trimming keeps it). -/
def badUrlEvents : List Event :=
  [.startElement "purl",
   .startElement "id", .characters "/obo/foo/a", .endElement "id",
   .startElement "type", .characters "partial", .endElement "type",
   .startElement "url", .characters "http://\nx", .endElement "url",
   .endElement "purl"]

/-- C4 (amended): for a completed record whose identifier and url were
captured and whose identifier passes the base-path check, validation
aborts with the invalid-url error if and only if the url does not match
`(http|https|ftp)://` followed by at least one non-newline character
(Python's `.` does not match a newline); in particular a record with
url `ftp://files.example.org/x` and type `partial` is accepted and
emitted as a prefix entry. -/
theorem c4_url_check (e : Entry) (idx : Nat) (base i u : String)
    (hid : e.id? = some i) (hpre : startsWithCI i base = true)
    (hurl : e.url? = some u) :
    (validate e idx base = .error (MigError.invalidUrl idx u) ↔
      urlAmendedMatches u = false) ∧
    (∃ st, processEvents "/obo/foo" initState ftpEvents = .ok st ∧
      st.pre = [⟨"prefix", "/f", "ftp://files.example.org/x"⟩] ∧
      st.exact = []) := by
  constructor
  · rw [← urlOk_eq_amended]
    constructor
    · intro hv
      by_contra hne
      have hu : urlOk u = true := by
        cases hcase : urlOk u
        · exact absurd hcase hne
        · rfl
      cases ht : e.type? with
      | none => simp [validate, hid, hpre, hurl, hu, ht] at hv
      | some t =>
        by_cases h1 : t = "302"
        · simp [validate, hid, hpre, hurl, hu, ht, h1] at hv
        · by_cases h2 : t = "partial"
          · simp [validate, hid, hpre, hurl, hu, ht, h1, h2] at hv
          · simp [validate, hid, hpre, hurl, hu, ht, h1, h2] at hv
    · intro hu
      simp [validate, hid, hpre, hurl, hu]
  · exact ⟨_, rfl, rfl, rfl⟩

/-- C4 counterexample to the claim as stated: the url `"http://\nx"`
does match "`(http|https|ftp)://` followed by at least one character"
(the spec-side pattern `urlSpecMatches`), survives field trimming
unchanged, and yet the record aborts the run with the invalid-url
error, because Python's `.` does not match the newline. -/
theorem c4_url_check_counterexample :
    urlSpecMatches "http://\nx" = true ∧
    pyStrip "http://\nx" = "http://\nx" ∧
    validate ⟨some "/obo/foo/a", some "partial", some "http://\nx"⟩ 1 "/obo/foo" =
      .error (MigError.invalidUrl 1 "http://\nx") ∧
    processEvents "/obo/foo" initState badUrlEvents =
      .error (MigError.invalidUrl 1 "http://\nx") :=
  ⟨rfl, rfl, rfl, rfl⟩

/-- Witness for C4 at the ftp record of the spec scenario. -/
theorem c4_url_check_witness :
    (validate ⟨some "/obo/foo/f", some "partial", some "ftp://files.example.org/x"⟩
        1 "/obo/foo" =
        .error (MigError.invalidUrl 1 "ftp://files.example.org/x") ↔
      urlAmendedMatches "ftp://files.example.org/x" = false) ∧
    (∃ st, processEvents "/obo/foo" initState ftpEvents = .ok st ∧
      st.pre = [⟨"prefix", "/f", "ftp://files.example.org/x"⟩] ∧
      st.exact = []) :=
  c4_url_check ⟨some "/obo/foo/f", some "partial", some "ftp://files.example.org/x"⟩
    1 "/obo/foo" "/obo/foo/f" "ftp://files.example.org/x" rfl rfl rfl

/-! C5: idempotence of the strip -/

/-- C5 (amended): stripping is a no-op on any string that does not
begin case-insensitively with the base path; hence re-applying the
strip to an id produced by a successful validation leaves it unchanged
whenever that stripped id no longer begins with the base path. The
proviso is necessary: a stripped id can itself begin with the base
path (see the counterexample). -/
theorem c5_strip_idempotent (base : String) :
    (∀ s, startsWithCI s base = false → stripBase base s = s) ∧
    (∀ i, startsWithCI i base = true →
      startsWithCI (stripBase base i) base = false →
      stripBase base (stripBase base i) = stripBase base i) :=
  have noop : ∀ s, startsWithCI s base = false → stripBase base s = s :=
    fun s h => by simp [stripBase, h]
  ⟨noop, fun i _ h2 => noop (stripBase base i) h2⟩

/-- C5 counterexample to the claim as stated: with base path
`/obo/foo`, the identifier `/obo/foo/obo/foo/x` validates successfully
and its stored id is `/obo/foo/x`; applying the same base-path strip
to that output again is not a no-op, since the base path still matches
as a prefix of the stripped id. -/
theorem c5_strip_idempotent_counterexample :
    validate ⟨some "/obo/foo/obo/foo/x", some "partial", some "http://e"⟩
        1 "/obo/foo" =
      .ok ⟨"prefix", "/obo/foo/x", "http://e"⟩ ∧
    startsWithCI "/obo/foo/x" "/obo/foo" = true ∧
    stripBase "/obo/foo" "/obo/foo/x" = "/x" ∧
    ("/x" : String) ≠ "/obo/foo/x" :=
  ⟨rfl, rfl, rfl, by decide⟩

/-- Witness for C5 on an ordinary id, where the proviso holds. -/
theorem c5_strip_idempotent_witness :
    stripBase "/obo/foo" (stripBase "/obo/foo" "/obo/foo/bar") =
      stripBase "/obo/foo" "/obo/foo/bar" :=
  (c5_strip_idempotent "/obo/foo").2 "/obo/foo/bar" rfl rfl

/-! C6: last write wins on repeated field captures -/

theorem empty_append_str (s : String) : "" ++ s = s := rfl

/-- The three tracked field names. -/
theorem tracked_eq (f : String) (h : tracked f = true) :
    f = "type" ∨ f = "id" ∨ f = "url" := by
  simpa [tracked, or_assoc] using h

/-- C6: within one record, capturing the same tracked field twice, each
time with non-empty trimmed content, succeeds (no error) and overwrites
the previously stored value: the entry after both captures holds the
trimmed content of the second occurrence, and `getField ∘ setField`
returns the new value whatever was stored before. -/
theorem c6_last_write_wins (base : String) (st : HState) (f c1 c2 : String)
    (hf : tracked f = true) (h1 : pyStrip c1 ≠ "") (h2 : pyStrip c2 ≠ "") :
    processEvents base st [.startElement f, .characters c1, .endElement f] =
      .ok { st with
            content := c1
            entry := setField st.entry f (pyStrip c1) } ∧
    processEvents base st
        [.startElement f, .characters c1, .endElement f,
         .startElement f, .characters c2, .endElement f] =
      .ok { st with
            content := c2
            entry := setField (setField st.entry f (pyStrip c1)) f (pyStrip c2) } ∧
    (∀ (e : Entry) (v : String), getField (setField e f v) f = some v) := by
  rcases tracked_eq f hf with rfl | rfl | rfl <;>
    refine ⟨?_, ?_, ?_⟩ <;>
      simp [processEvents, step, startElementF, charactersF, endElementF,
        tracked, setField, getField, empty_append_str, h1, h2]

/-- Witness for C6: capturing `<id>` twice keeps the second value. -/
theorem c6_last_write_wins_witness :
    processEvents "/obo/foo" initState
        [.startElement "id", .characters "first", .endElement "id",
         .startElement "id", .characters "second", .endElement "id"] =
      .ok { initState with
            content := "second"
            entry := setField (setField initState.entry "id" (pyStrip "first"))
              "id" (pyStrip "second") } :=
  (c6_last_write_wins "/obo/foo" initState "id" "first" "second" rfl
    (by decide) (by decide)).2.1

/-! C10: the content buffer resets on every element start -/

/-- C10: every element-start event resets the content buffer to empty,
not only tracked fields; consequently, when a tracked field's character
data is interrupted by a child element, only the data arriving after
the start of the last child element is captured (text chunks preceding
a nested element are silently discarded). -/
theorem c10_buffer_reset (base : String) :
    (∀ (st : HState) (n : String), (startElementF st n).content = "") ∧
    (∀ (st : HState) (f child a b : String), tracked f = true →
      tracked child = false → child ≠ "purl" → pyStrip b ≠ "" →
      processEvents base st
          [.startElement f, .characters a, .startElement child,
           .endElement child, .characters b, .endElement f] =
        .ok { st with
              content := b
              entry := setField st.entry f (pyStrip b) }) := by
  constructor
  · intro st n
    unfold startElementF
    split <;> rfl
  · intro st f child a b hf hc hcp hb
    rcases tracked_eq f hf with rfl | rfl | rfl <;>
      simp [processEvents, step, startElementF, charactersF, endElementF,
        setField, hc, hcp, hb, empty_append_str,
        show tracked "type" = true from rfl,
        show tracked "id" = true from rfl,
        show tracked "url" = true from rfl]

/-- Witness for C10: text before a nested child element is dropped,
the trimmed text after it is captured. -/
theorem c10_buffer_reset_witness :
    processEvents "/obo/foo" initState
        [.startElement "id", .characters "DROPPED", .startElement "nested",
         .endElement "nested", .characters " kept ", .endElement "id"] =
      .ok { initState with
            content := " kept "
            entry := setField initState.entry "id" (pyStrip " kept ") } :=
  (c10_buffer_reset "/obo/foo").2 initState "id" "nested" "DROPPED" " kept "
    rfl rfl (by decide) (by decide)

/-! C7: no output without entries -/

/-- C7: if the parse completes but the combined entry list is empty (in
particular for an input with no records), the run aborts with the
no-entries error; and a run only produces output when every record
validated (the parse returned a state, not an error) and the entry list
is non-empty — the output then being the header followed by the
rendered entries. -/
theorem c7_no_entries (idspace : String) (evs : List Event) :
    (∀ st, processEvents ("/obo/" ++ lowerStr idspace) initState evs = .ok st →
      composeEntries st.exact st.pre = [] →
      runMigrate idspace evs = .error MigError.noEntries) ∧
    (∀ out, runMigrate idspace evs = .ok out →
      ∃ st, processEvents ("/obo/" ++ lowerStr idspace) initState evs = .ok st ∧
        composeEntries st.exact st.pre ≠ [] ∧
        out = headerText idspace ++
          String.join ((composeEntries st.exact st.pre).map renderEntry)) := by
  constructor
  · intro st h hempty
    simp only [runMigrate]
    rw [h]
    simp [hempty]
  · intro out h
    simp only [runMigrate] at h
    cases hp : processEvents ("/obo/" ++ lowerStr idspace) initState evs with
    | error e => rw [hp] at h; exact absurd h (by simp)
    | ok st =>
      rw [hp] at h
      by_cases hlen : (composeEntries st.exact st.pre).length = 0
      · simp [hlen] at h
      · simp [hlen] at h
        refine ⟨st, rfl, ?_, h.symm⟩
        intro hnil
        rw [hnil] at hlen
        exact hlen rfl

/-- Witness for C7: an input with no records aborts with the
no-entries error. -/
theorem c7_no_entries_witness :
    runMigrate "foo" [.startElement "purls", .endElement "purls"] =
      .error MigError.noEntries :=
  (c7_no_entries "foo" [.startElement "purls", .endElement "purls"]).1
    initState rfl rfl

/-! C8: order of the validation checks -/

/-- C8: validation of a completed record runs its checks in the fixed
source order — id presence, base-path prefix, url presence, url shape,
type presence, type mapping — each failing check aborting immediately,
so earlier failures mask later ones (each implication below holds
whatever the later fields contain); and every error produced by
`validate` carries the 1-based record index it was given. -/
theorem c8_check_order (e : Entry) (idx : Nat) (base : String) :
    (e.id? = none → validate e idx base = .error (.missingField "id" idx)) ∧
    (∀ i, e.id? = some i → startsWithCI i base = false →
      validate e idx base = .error (.prefixMismatch idx i base)) ∧
    (∀ i, e.id? = some i → startsWithCI i base = true → e.url? = none →
      validate e idx base = .error (.missingField "url" idx)) ∧
    (∀ i u, e.id? = some i → startsWithCI i base = true → e.url? = some u →
      urlOk u = false → validate e idx base = .error (.invalidUrl idx u)) ∧
    (∀ i u, e.id? = some i → startsWithCI i base = true → e.url? = some u →
      urlOk u = true → e.type? = none →
      validate e idx base = .error (.missingField "type" idx)) ∧
    (∀ i u t, e.id? = some i → startsWithCI i base = true → e.url? = some u →
      urlOk u = true → e.type? = some t → t ≠ "302" → t ≠ "partial" →
      validate e idx base = .error (.unknownType t idx)) ∧
    (∀ err, validate e idx base = .error err → MigError.index err = some idx) := by
  refine ⟨?_, ?_, ?_, ?_, ?_, ?_, fun err h => validate_error_index e idx base err h⟩
  · intro h; simp [validate, h]
  · intro i h1 h2; simp [validate, h1, h2]
  · intro i h1 h2 h3; simp [validate, h1, h2, h3]
  · intro i u h1 h2 h3 h4; simp [validate, h1, h2, h3, h4]
  · intro i u h1 h2 h3 h4 h5; simp [validate, h1, h2, h3, h4, h5]
  · intro i u t h1 h2 h3 h4 h5 h6 h7; simp [validate, h1, h2, h3, h4, h5, h6, h7]

/-- Witness for C8: a record that is both missing its identifier and
carrying an unknown type fails with the missing-id error (the earlier
check masks the later one). -/
theorem c8_check_order_witness :
    validate ⟨none, some "bogus", some "http://x"⟩ 3 "/obo/foo" =
      .error (.missingField "id" 3) :=
  (c8_check_order ⟨none, some "bogus", some "http://x"⟩ 3 "/obo/foo").1 rfl

/-! C9: one output entry per record -/

/-- Detects `<purl>` start events in a stream. -/
def isStartPurl : Event → Bool
  | .startElement n => n == "purl"
  | _ => false

/-- Detects `</purl>` end events in a stream. -/
def isEndPurl : Event → Bool
  | .endElement n => n == "purl"
  | _ => false

def countStartPurl (evs : List Event) : Nat := evs.countP isStartPurl

def countEndPurl (evs : List Event) : Nat := evs.countP isEndPurl

/-- The startElement handler never touches the accumulated rule lists, and bumps
the record counter exactly on `<purl>`. -/
theorem startElementF_lists (st : HState) (n : String) :
    (startElementF st n).exact = st.exact ∧ (startElementF st n).pre = st.pre ∧
    (startElementF st n).count = st.count + (if n = "purl" then 1 else 0) := by
  unfold startElementF
  split <;> rename_i h <;> simp [h]

/-- A successful `endElement` appends exactly one rule on `</purl>`
and none otherwise, and never changes the record counter. -/
theorem endElementF_ok_lists (st : HState) (n base : String) (st' : HState)
    (h : endElementF st n base = .ok st') :
    st'.exact.length + st'.pre.length =
      st.exact.length + st.pre.length + (if n = "purl" then 1 else 0) ∧
    st'.count = st.count := by
  unfold endElementF at h
  by_cases htr : tracked n
  · have hnp : n ≠ "purl" := by
      rcases tracked_eq n htr with rfl | rfl | rfl <;> decide
    rw [if_pos htr] at h
    by_cases he : pyStrip st.content = ""
    · rw [if_pos he] at h; exact absurd h (by simp)
    · rw [if_neg he] at h
      injection h with h'
      subst h'
      simp [hnp]
  · rw [if_neg htr] at h
    by_cases hp : n = "purl"
    · rw [if_pos hp] at h
      cases hv : validate st.entry st.count base with
      | error e => rw [hv] at h; exact absurd h (by simp)
      | ok r =>
        rw [hv] at h
        dsimp only at h
        by_cases hr : r.rule = "exact"
        · rw [if_pos hr] at h
          injection h with h'
          subst h'
          refine ⟨?_, rfl⟩
          simp [hp, List.length_append]
          omega
        · rw [if_neg hr] at h
          injection h with h'
          subst h'
          refine ⟨?_, rfl⟩
          simp [hp, List.length_append]
          omega
    · rw [if_neg hp] at h
      injection h with h'
      subst h'
      simp [hp]

/-- Over a successfully processed stream, the rule lists grow by
exactly the number of `</purl>` events, and the record counter grows by
exactly the number of `<purl>` events. -/
theorem processEvents_counts (base : String) :
    ∀ (evs : List Event) (st st' : HState),
      processEvents base st evs = .ok st' →
      st'.exact.length + st'.pre.length =
        st.exact.length + st.pre.length + countEndPurl evs ∧
      st'.count = st.count + countStartPurl evs := by
  intro evs
  induction evs with
  | nil =>
    intro st st' h
    injection h with h'
    subst h'
    simp [countEndPurl, countStartPurl]
  | cons ev evs ih =>
    intro st st' h
    cases ev with
    | startElement n =>
      have h' : processEvents base (startElementF st n) evs = .ok st' := h
      have hrec := ih _ _ h'
      have hl := startElementF_lists st n
      refine ⟨?_, ?_⟩
      · rw [hrec.1, hl.1, hl.2.1]
        simp [countEndPurl, isEndPurl, List.countP_cons]
      · rw [hrec.2, hl.2.2]
        simp only [countStartPurl, List.countP_cons, isStartPurl, beq_iff_eq]
        by_cases hn : n = "purl" <;> simp [hn] <;> omega
    | characters s =>
      have h' : processEvents base (charactersF st s) evs = .ok st' := h
      have hrec := ih _ _ h'
      refine ⟨?_, ?_⟩
      · rw [hrec.1]
        simp [charactersF, countEndPurl, isEndPurl, List.countP_cons]
      · rw [hrec.2]
        simp [charactersF, countStartPurl, isStartPurl, List.countP_cons]
    | endElement n =>
      unfold processEvents at h
      cases he : endElementF st n base with
      | error e => simp only [step] at h; rw [he] at h; exact absurd h (by simp)
      | ok st1 =>
        simp only [step] at h
        rw [he] at h
        have hrec := ih _ _ h
        have hl := endElementF_ok_lists st n base st1 he
        refine ⟨?_, ?_⟩
        · rw [hrec.1, hl.1]
          simp only [countEndPurl, List.countP_cons, isEndPurl, beq_iff_eq]
          by_cases hn : n = "purl" <;> simp [hn] <;> omega
        · rw [hrec.2, hl.2]
          simp [countStartPurl, isStartPurl, List.countP_cons]

/-- C9: whenever the parse completes successfully, the number of
entries in the composed output equals the number of `</purl>` events,
the record counter equals the number of `<purl>` events, and hence for
well-formed input (where the two counts agree, each record element
contributing one matched pair) the output's entry count equals the
input's record count. -/
theorem c9_entry_count (idspace : String) (evs : List Event) (st : HState)
    (h : processEvents ("/obo/" ++ lowerStr idspace) initState evs = .ok st) :
    (composeEntries st.exact st.pre).length = countEndPurl evs ∧
    st.count = countStartPurl evs ∧
    (countStartPurl evs = countEndPurl evs →
      (composeEntries st.exact st.pre).length = countStartPurl evs) := by
  have hc := processEvents_counts _ evs initState st h
  have hlen : (composeEntries st.exact st.pre).length =
      st.exact.length + st.pre.length := by
    simp [composeEntries, List.length_append, length_sortRules]
  have h1 : (composeEntries st.exact st.pre).length = countEndPurl evs := by
    rw [hlen]
    have := hc.1
    simpa [initState] using this
  refine ⟨h1, ?_, ?_⟩
  · have := hc.2
    simpa [initState] using this
  · intro he
    rw [h1, he]

/-- The final state of the demonstration run. -/
def demoState : HState :=
  match processEvents ("/obo/" ++ lowerStr "foo") initState demoEvents with
  | .ok st => st
  | .error _ => initState

/-- Witness for C9 on the two-record demonstration input. -/
theorem c9_entry_count_witness :
    (composeEntries demoState.exact demoState.pre).length = countEndPurl demoEvents ∧
    demoState.count = countStartPurl demoEvents ∧
    (countStartPurl demoEvents = countEndPurl demoEvents →
      (composeEntries demoState.exact demoState.pre).length =
        countStartPurl demoEvents) :=
  c9_entry_count "foo" demoEvents demoState rfl

end Migrate
